import Mathlib

/-!
Shallow embedding of `nmt/utils/iterator_utils.py` (strubell/nmt): the
streaming data-preparation pipeline that turns raw parallel text lines into
numerically encoded, length-bucketed, padded batches.

Datasets are embedded as Lean lists processed stage by stage, in the exact
stage order of `get_iterator` / `get_infer_iterator` (word mode, i.e.
`use_char_encode = False`; the character branches call byte-encoding helpers
of `vocab_utils` and are not exercised by the claims).  TensorFlow dataset
primitives (`shard`, `skip`, `shuffle`, `padded_batch`, `group_by_window`)
are embedded by their documented semantics; `tf.data.Dataset.shuffle` itself
is library code, so its bounded-window uniform draw is modelled here with an
explicit linear-congruential generator, keeping the properties the pipeline
relies on: it is a deterministic function of the seed, and with
`reshuffle_each_iteration = False` the same permutation is used every epoch.
-/

namespace IteratorUtils

/-- A vocabulary lookup table: token string to integer id; unknown tokens get
the table's default id, so lookup is total (mirrors
`tf.contrib.lookup` tables with a default value). -/
structure VocabTable where
  lookup : String → Int

/-- Configuration record collecting the keyword arguments of `get_iterator`.
Optional integers use `Option Nat`; `none` plays the role of Python `None`
(and the code tests them with Python truthiness, where `0` and `None` both
disable the corresponding feature). -/
structure TrainConfig where
  batchSize : Nat
  sos : String
  eos : String
  randomSeed : Nat
  numBuckets : Nat
  srcMaxLen : Option Nat
  tgtMaxLen : Option Nat
  outputBufferSize : Option Nat
  skipCount : Option Nat
  numShards : Nat
  shardIndex : Nat
  reshuffle_each_iteration : Bool

/-- Python truthiness of an optional natural number: `None` and `0` are
falsy, every positive value is truthy (used for `if src_max_len:` etc.). -/
def truthy (m : Option Nat) : Bool :=
  match m with
  | none => false
  | some k => decide (k ≠ 0)

/-- Split a character list at every delimiter character, keeping empty
segments (the raw segment structure underlying `tf.string_split`). -/
def splitOnPred (p : Char → Bool) : List Char → List (List Char)
  | [] => [[]]
  | c :: rest =>
    if p c then [] :: splitOnPred p rest
    else
      match splitOnPred p rest with
      | [] => [[c]]
      | seg :: segs => (c :: seg) :: segs

/-- Embedding of `tf.string_split([line]).values`: split one raw line on
spaces, dropping empty tokens (TensorFlow skips empty strings). -/
def wsSplit (s : String) : List String :=
  ((splitOnPred (fun c => c = ' ') s.data).map (fun cs => String.mk cs)).filter
    (fun t => decide (t ≠ ""))

/-- Embedding of the per-token split
`tf.string_split(tokens, delimiter=INPUT_DELIM)` restricted to one token:
split on the sub-field delimiter, dropping empty pieces. -/
def fieldSplit (delim : Char) (t : String) : List String :=
  ((splitOnPred (fun c => c = delim) t.data).map (fun cs => String.mk cs)).filter
    (fun u => decide (u ≠ ""))

/-- Number of columns of the dense tensor produced by `sparse_to_dense`:
the maximum sub-field count over the record's tokens. -/
def gridWidth (rows : List (List String)) : Nat :=
  rows.foldr (fun r acc => max r.length acc) 0

/-- Embedding of
`tf.sparse_to_dense(indices, dense_shape, values, default_value='')` applied
to the ragged result of the sub-field split: every row is right-padded with
empty strings up to the widest row. -/
def sparse_to_dense (rows : List (List String)) : List (List String) :=
  rows.map (fun r => r ++ List.replicate (gridWidth rows - r.length) "")

/-- One raw line through the two tokenization maps and the densify map:
whitespace split, per-token sub-field split, dense conversion. -/
def tokenizeLine (delim : Char) (s : String) : List (List String) :=
  sparse_to_dense ((wsSplit s).map (fieldSplit delim))

/-- Embedding of `lookup_sep_vocabs(vocab_tables, input)`: entry `(t, i)` of
the result is table `i` applied to column `i` of row `t`.  (TensorFlow's
`input[:, i]` raises if the dense width is below the table count; the
embedding reads an empty string there, which the claims never rely on.) -/
def lookup_sep_vocabs (tables : List VocabTable) (input : List (List String)) :
    List (List Int) :=
  input.map (fun row => tables.enum.map (fun p => p.2.lookup (row.getD p.1 "")))

/-- Embedding of the `src[:src_max_len]` truncation guarded by
`if src_max_len:` — applied only when the configured maximum is truthy. -/
def truncateGrid (m : Option Nat) (g : List (List String)) : List (List String) :=
  if truthy m then g.take (m.getD 0) else g

/-- Python `tables[0]` lookup used for the per-side padding / framing ids
(the source derives the padding id solely from field 0's table). -/
def lookup0 (ts : List VocabTable) (w : String) : Int :=
  match ts with
  | [] => 0
  | t :: _ => t.lookup w

/-- One training record as it enters the batching stage, mirroring the
5-tuple `(src, tgt_in, tgt_out, src_len, tgt_len)` of the pipeline. -/
structure TrainRecord where
  source : List (List Int)
  target_input : List (List Int)
  target_output : List (List Int)
  source_sequence_length : Nat
  target_sequence_length : Nat
deriving DecidableEq, Repr

/-- The framer plus length map: `tgt_in = concat([sos_ids], tgt)`,
`tgt_out = concat(tgt, [eos_ids])`, `src_len = shape(src)[0]`,
`tgt_len = shape(tgt_in)[0]`. -/
def frame_record (sosRow eosRow : List Int) (src tgt : List (List Int)) :
    TrainRecord :=
  ⟨src, sosRow :: tgt, tgt ++ [eosRow], src.length, (sosRow :: tgt).length⟩

/-- Worker for the shard embedding: `k` counts down to the next kept
position; after keeping an element, `n - 1` further elements are skipped. -/
def shardAux (n : Nat) : Nat → List α → List α
  | _, [] => []
  | 0, x :: xs => x :: shardAux n (n - 1) xs
  | k + 1, _ :: xs => shardAux n k xs

/-- Embedding of `dataset.shard(num_shards, shard_index)`: keeps exactly the
elements whose position in the incoming stream is congruent to
`shard_index` modulo `num_shards` (positions `i, i + n, i + 2n, ...`). -/
def shardList (n i : Nat) (l : List α) : List α :=
  shardAux n i l

/-- The linear congruential step used to model the deterministic random
stream of `tf.data.Dataset.shuffle` for a fixed seed. -/
def lcg (s : Nat) : Nat :=
  (1103515245 * s + 12345) % 2147483648

/-- Bounded-window shuffle, modelling `tf.data.Dataset.shuffle`: draw the
next output element pseudo-randomly from the window, backfill the window
from the remaining stream, and step the generator.  The fuel argument is
initialised to the total element count, which bounds the number of draws. -/
def drawShuffle : Nat → Nat → List α → List α → List α
  | _, _, [], _ => []
  | 0, _, _ :: _, _ => []
  | fuel + 1, s, w :: ws, rest =>
    let win := w :: ws
    let j := s % win.length
    let x := win.getD j w
    match rest with
    | [] => x :: drawShuffle fuel (lcg s) (win.eraseIdx j) []
    | r :: rs => x :: drawShuffle fuel (lcg s) (win.eraseIdx j ++ [r]) rs

/-- Embedding of `dataset.shuffle(buffer_size, seed, ...)`: fill a window of
`bufSize` elements and emit by repeated pseudo-random draws. -/
def shuffle_stage (bufSize seed : Nat) (l : List α) : List α :=
  drawShuffle l.length seed (l.take bufSize) (l.drop bufSize)

/-- Effective seed of the shuffle for a given epoch: with
`reshuffle_each_iteration = True` TensorFlow derives a fresh seed each
epoch (modelled by mixing the epoch index in); with `False` the base seed,
hence one fixed permutation, is reused for every epoch. -/
def effectiveSeed (reshuffle : Bool) (seed epoch : Nat) : Nat :=
  if reshuffle then seed + 2654435761 * epoch else seed

/-- Default applied by `if not output_buffer_size:`; `None` and `0` both
fall back to `batch_size * 1000`. -/
def effectiveBufferSize (cfg : TrainConfig) : Nat :=
  if truthy cfg.outputBufferSize then cfg.outputBufferSize.getD 0
  else cfg.batchSize * 1000

/-- The stream of framed training records entering the batching stage of
`get_iterator`: zip, shard, skip, shuffle, whitespace split, sub-field
split, densify, zero-length filter, truncation, vocabulary lookup, framing
and length computation, in the source's stage order. -/
def recordStream (cfg : TrainConfig) (srcTables tgtTables : List VocabTable)
    (delim : Char) (epoch : Nat) (input : List (String × String)) :
    List TrainRecord :=
  let seed := effectiveSeed cfg.reshuffle_each_iteration cfg.randomSeed epoch
  let s1 := shardList cfg.numShards cfg.shardIndex input
  let s2 := match cfg.skipCount with
            | none => s1
            | some k => s1.drop k
  let s3 := shuffle_stage (effectiveBufferSize cfg) seed s2
  let s4 := s3.map (fun p => (tokenizeLine delim p.1, tokenizeLine delim p.2))
  let s5 := s4.filter (fun p => decide (0 < p.1.length) && decide (0 < p.2.length))
  let s6 := s5.map (fun p =>
    (truncateGrid cfg.srcMaxLen p.1, truncateGrid cfg.tgtMaxLen p.2))
  let s7 := s6.map (fun p =>
    (lookup_sep_vocabs srcTables p.1, lookup_sep_vocabs tgtTables p.2))
  let sosRow := tgtTables.map (fun t => t.lookup cfg.sos)
  let eosRow := tgtTables.map (fun t => t.lookup cfg.eos)
  s7.map (fun p => frame_record sosRow eosRow p.1 p.2)

/-- One emitted training batch, mirroring the tuple the batched iterator
yields (the `BatchedInput` fields other than the session initializer). -/
structure Batch where
  source : List (List (List Int))
  target_input : List (List (List Int))
  target_output : List (List (List Int))
  source_sequence_length : List Nat
  target_sequence_length : List Nat
deriving DecidableEq, Repr

/-- Maximum of a list of lengths (0 for the empty list), the per-component
padded dimension `padded_batch` computes for shape `[None, k]` entries. -/
def maxNat (l : List Nat) : Nat :=
  l.foldr max 0

/-- Pad one token-id grid to `len` timesteps by appending rows holding the
padding id in every field (how `padded_batch` fills a `[None, numF]`
component with the scalar `padding_values` entry). -/
def padGrid (numF : Nat) (padId : Int) (len : Nat) (g : List (List Int)) :
    List (List Int) :=
  g ++ List.replicate (len - g.length) (List.replicate numF padId)

/-- Pad one window of records into a batch: each grid component is padded to
the window's maximum timestep count for that component; the scalar length
components are stacked unchanged (each element is a single scalar, so the
declared padding value `0` never fills anything — the source comments mark
it `unused`). -/
def padBatch (nSrcF nTgtF : Nat) (srcPad tgtPad : Int) (w : List TrainRecord) :
    Batch :=
  let sL := maxNat (w.map (fun r => r.source.length))
  let tiL := maxNat (w.map (fun r => r.target_input.length))
  let toL := maxNat (w.map (fun r => r.target_output.length))
  ⟨w.map (fun r => padGrid nSrcF srcPad sL r.source),
   w.map (fun r => padGrid nTgtF tgtPad tiL r.target_input),
   w.map (fun r => padGrid nTgtF tgtPad toL r.target_output),
   w.map (fun r => r.source_sequence_length),
   w.map (fun r => r.target_sequence_length)⟩

/-- Prepend an element to the first chunk of a chunk list (creating the
first chunk when there is none). -/
def consHead (a : α) : List (List α) → List (List α)
  | [] => [[a]]
  | c :: cs => (a :: c) :: cs

/-- Worker for chunking: `k` is the remaining capacity of the chunk under
construction; when it reaches 1 the chunk is closed and a fresh chunk of
capacity `n` is started. -/
def chunkAux (n : Nat) : Nat → List α → List (List α)
  | _, [] => []
  | k, x :: xs =>
    if k ≤ 1 then [x] :: chunkAux n n xs
    else consHead x (chunkAux n (k - 1) xs)

/-- Split a stream into consecutive chunks; chunks before the last hold
`n` elements and the last holds the remainder (the grouping
`Dataset.padded_batch(batch_size, ...)` performs before padding). -/
def chunkList (n : Nat) (l : List α) : List (List α) :=
  chunkAux n n l

/-- Embedding of `batching_func(x) = x.padded_batch(batch_size, ...)`:
consecutive chunks of up to `batch_size` records, each padded to its own
maxima. -/
def batching_func (batchSize nSrcF nTgtF : Nat) (srcPad tgtPad : Int)
    (recs : List TrainRecord) : List Batch :=
  (chunkList batchSize recs).map (padBatch nSrcF nTgtF srcPad tgtPad)

/-- Embedding of `key_func(...)`: the bucket id of a record from its two
recorded lengths, exactly as the source computes it. -/
def key_func (srcMaxLen : Option Nat) (numBuckets srcLen tgtLen : Nat) : Nat :=
  let bucketWidth :=
    if truthy srcMaxLen then (srcMaxLen.getD 0 + numBuckets - 1) / numBuckets
    else 10
  min numBuckets (max (srcLen / bucketWidth) (tgtLen / bucketWidth))

/-- Window currently accumulated for a key in the `group_by_window` state
(empty when the key was never seen or was just flushed). -/
def getWin : List (Nat × List α) → Nat → List α
  | [], _ => []
  | (k, v) :: rest, q => if k = q then v else getWin rest q

/-- Replace (or append) the window stored for a key. -/
def setWin : List (Nat × List α) → Nat → List α → List (Nat × List α)
  | [], q, v => [(q, v)]
  | (k, w) :: rest, q, v =>
    if k = q then (q, v) :: rest else (k, w) :: setWin rest q v

/-- Worker of the `group_by_window` embedding: append each arriving element
to its key's window, flush a window as soon as it reaches `wsize`, and on
stream exhaustion flush every remaining non-empty window. -/
def gbwAux (key : α → Nat) (wsize : Nat) :
    List (Nat × List α) → List α → List (List α)
  | wins, [] => (wins.map Prod.snd).filter (fun w => !w.isEmpty)
  | wins, r :: rs =>
    let k := key r
    let cur2 := getWin wins k ++ [r]
    if wsize ≤ cur2.length then
      cur2 :: gbwAux key wsize (setWin wins k []) rs
    else
      gbwAux key wsize (setWin wins k cur2) rs

/-- Embedding of `tf.contrib.data.group_by_window(key_func, reduce_func,
window_size)` at the level of the windows it hands to `reduce_func`. -/
def group_by_window (key : α → Nat) (wsize : Nat) (stream : List α) :
    List (List α) :=
  gbwAux key wsize [] stream

/-- Embedding of `get_iterator` (word mode): the full training pipeline from
raw line pairs to the sequence of emitted padded batches.  With
`num_buckets > 1` records are grouped by `key_func` windows of
`window_size = batch_size` and each window is padded by `batching_func`;
otherwise `batching_func` batches the arrival order directly. -/
def get_iterator (cfg : TrainConfig) (srcTables tgtTables : List VocabTable)
    (delim : Char) (epoch : Nat) (input : List (String × String)) :
    List Batch :=
  let srcEosId := lookup0 srcTables cfg.eos
  let tgtEosId := lookup0 tgtTables cfg.eos
  let recs := recordStream cfg srcTables tgtTables delim epoch input
  if 1 < cfg.numBuckets then
    (group_by_window
        (fun r => key_func cfg.srcMaxLen cfg.numBuckets
          r.source_sequence_length r.target_sequence_length)
        cfg.batchSize recs).map
      (padBatch srcTables.length tgtTables.length srcEosId tgtEosId)
  else
    batching_func cfg.batchSize srcTables.length tgtTables.length
      srcEosId tgtEosId recs

/-- One emitted inference batch (source side only). -/
structure InferBatch where
  source : List (List (List Int))
  source_sequence_length : List Nat
deriving DecidableEq, Repr

/-- The stream of `(source grid, source length)` records of
`get_infer_iterator` (word mode): whitespace split, sub-field split,
densify, truncation, vocabulary lookup, length. -/
def infer_records (srcTables : List VocabTable) (delim : Char)
    (srcMaxLen : Option Nat) (input : List String) :
    List (List (List Int) × Nat) :=
  let s1 := input.map (tokenizeLine delim)
  let s2 := s1.map (truncateGrid srcMaxLen)
  let s3 := s2.map (lookup_sep_vocabs srcTables)
  s3.map (fun g => (g, g.length))

/-- Embedding of `get_infer_iterator` (word mode): no filter, no framing, no
bucketing — just the record stream batched by `padded_batch`. -/
def get_infer_iterator (srcTables : List VocabTable) (batchSize : Nat)
    (eos : String) (srcMaxLen : Option Nat) (delim : Char)
    (input : List String) : List InferBatch :=
  let srcEosId := lookup0 srcTables eos
  (chunkList batchSize (infer_records srcTables delim srcMaxLen input)).map
    (fun w =>
      let sL := maxNat (w.map (fun r => r.1.length))
      ⟨w.map (fun r => padGrid srcTables.length srcEosId sL r.1),
       w.map (fun r => r.2)⟩)

/-- The per-side start and end id rows the framer uses: every field's table
applied to the marker token. -/
def markerRow (tables : List VocabTable) (w : String) : List Int :=
  tables.map (fun t => t.lookup w)

/-- The padding row `padded_batch` appends: the end-of-sequence id obtained
from field 0's vocabulary table of the side, replicated across all fields
of that side. -/
def padRow (tables : List VocabTable) (eos : String) : List Int :=
  List.replicate tables.length (lookup0 tables eos)

/-- Property of one padded field-group of a batch: every grid is padded to
one shared timestep dimension, the maximum of the recorded (raw) lengths,
and everything past a record's raw length is the padding row. -/
def GridPadded (padRowV : List Int) (grids : List (List (List Int)))
    (lens : List Nat) : Prop :=
  ∀ p ∈ grids.zip lens,
    p.1.length = maxNat lens ∧ p.2 ≤ p.1.length ∧
    p.1.drop p.2 = List.replicate (maxNat lens - p.2) padRowV

/-- Bucket id as the specification words it: the maximum of the two
recorded lengths, divided by the bucket width, clamped to `num_buckets`;
the width is the ceiling of `src_max_len / num_buckets` when a maximum
source length is configured and 10 otherwise. -/
def claimBucketId (srcMaxLen : Option Nat) (numBuckets srcLen tgtLen : Nat) :
    Nat :=
  let bucketWidth :=
    if truthy srcMaxLen then srcMaxLen.getD 0 ⌈/⌉ numBuckets else 10
  min numBuckets (max srcLen tgtLen / bucketWidth)

/-! ### Concrete vocabularies, configurations and inputs used to evaluate
the theorems on closed instances (single-field word-mode setup mirroring the
specification's end-to-end example, plus a two-field setup exercising the
sub-field delimiter). -/

/-- Single-field source vocabulary: tokens `a..e` get ids 4..8. -/
def srcTablesW : List VocabTable :=
  [⟨fun w => if w = "a" then 4 else if w = "b" then 5 else
      if w = "c" then 6 else if w = "d" then 7 else if w = "e" then 8 else
      if w = "<s>" then 2 else if w = "</s>" then 3 else 0⟩]

/-- Single-field target vocabulary: tokens `x,y,z` get ids 9,10,11. -/
def tgtTablesW : List VocabTable :=
  [⟨fun w => if w = "x" then 9 else if w = "y" then 10 else
      if w = "z" then 11 else if w = "<s>" then 2 else
      if w = "</s>" then 3 else 0⟩]

/-- Configuration of the end-to-end example: batch size 2, one bucket, one
shard, no truncation, no skipping, fixed permutation across epochs. -/
def cfgW : TrainConfig :=
  ⟨2, "<s>", "</s>", 0, 1, none, none, none, none, 1, 0, false⟩

/-- The end-to-end example corpus. -/
def inputW : List (String × String) :=
  [("a b c", "x y"), ("d e", "z")]

/-- Two-field source vocabulary (surface field and tag field). -/
def srcTablesC3 : List VocabTable :=
  [⟨fun w => if w = "a" then 4 else if w = "b" then 5 else
      if w = "</s>" then 3 else 0⟩,
   ⟨fun w => if w = "x" then 14 else if w = "</s>" then 3 else 0⟩]

/-- Two-field target vocabulary. -/
def tgtTablesC3 : List VocabTable :=
  [⟨fun w => if w = "c" then 6 else if w = "<s>" then 2 else
      if w = "</s>" then 3 else 0⟩,
   ⟨fun w => if w = "y" then 15 else if w = "<s>" then 2 else
      if w = "</s>" then 3 else 0⟩]

/-- Configuration for the malformed-token run: batch size 1, one bucket. -/
def cfgC3 : TrainConfig :=
  ⟨1, "<s>", "</s>", 0, 1, none, none, none, none, 1, 0, false⟩

/-! ### Basic lemmas about the auxiliary operations -/

theorem maxNat_le_of_mem {l : List Nat} {a : Nat} (h : a ∈ l) : a ≤ maxNat l := by
  induction l with
  | nil => cases h
  | cons x xs ih =>
    rcases List.mem_cons.1 h with rfl | hx
    · exact le_max_left _ _
    · exact le_trans (ih hx) (le_max_right _ _)

theorem gridWidth_eq_maxNat (rows : List (List String)) :
    gridWidth rows = maxNat (rows.map (fun r => r.length)) := by
  induction rows with
  | nil => rfl
  | cons r rs ih => simp [gridWidth, maxNat] at ih ⊢; omega

theorem truncateGrid_length_pos {m : Option Nat} {g : List (List String)}
    (h : 0 < g.length) : 0 < (truncateGrid m g).length := by
  unfold truncateGrid truthy
  cases m with
  | none => simpa
  | some k =>
    by_cases hk : k = 0
    · simp [hk, h]
    · simp [hk, List.length_take]
      omega

theorem lookup_sep_vocabs_length (tables : List VocabTable)
    (input : List (List String)) :
    (lookup_sep_vocabs tables input).length = input.length := by
  simp [lookup_sep_vocabs]

theorem lookup_sep_vocabs_row_length {tables : List VocabTable}
    {input : List (List String)} {row : List Int}
    (h : row ∈ lookup_sep_vocabs tables input) : row.length = tables.length := by
  unfold lookup_sep_vocabs at h
  rcases List.mem_map.1 h with ⟨r, _, rfl⟩
  simp [List.enum_length]

theorem padGrid_length {nf : Nat} {p : Int} {L : Nat} {g : List (List Int)}
    (h : g.length ≤ L) : (padGrid nf p L g).length = L := by
  simp [padGrid]
  omega

theorem padGrid_drop (nf : Nat) (p : Int) (L : Nat) (g : List (List Int)) :
    (padGrid nf p L g).drop g.length =
      List.replicate (L - g.length) (List.replicate nf p) := by
  simp only [padGrid]
  exact List.drop_left g _

/-! ### Inversion of the training record stream -/

theorem recordStream_inv {cfg : TrainConfig} {ST TT : List VocabTable}
    {d : Char} {e : Nat} {input : List (String × String)} {r : TrainRecord}
    (hr : r ∈ recordStream cfg ST TT d e input) :
    ∃ sg tg : List (List String), 0 < sg.length ∧ 0 < tg.length ∧
      r = frame_record (markerRow TT cfg.sos) (markerRow TT cfg.eos)
            (lookup_sep_vocabs ST sg) (lookup_sep_vocabs TT tg) := by
  simp only [recordStream] at hr
  rcases List.mem_map.1 hr with ⟨p7, hp7, rfl⟩
  rcases List.mem_map.1 hp7 with ⟨p6, hp6, rfl⟩
  rcases List.mem_map.1 hp6 with ⟨p5, hp5, rfl⟩
  rcases List.mem_filter.1 hp5 with ⟨_, hfil⟩
  simp only [Bool.and_eq_true, decide_eq_true_eq] at hfil
  exact ⟨truncateGrid cfg.srcMaxLen p5.1, truncateGrid cfg.tgtMaxLen p5.2,
    truncateGrid_length_pos hfil.1, truncateGrid_length_pos hfil.2, rfl⟩

theorem recordStream_lengths {cfg : TrainConfig} {ST TT : List VocabTable}
    {d : Char} {e : Nat} {input : List (String × String)} {r : TrainRecord}
    (hr : r ∈ recordStream cfg ST TT d e input) :
    r.source_sequence_length = r.source.length ∧
    r.target_sequence_length = r.target_input.length ∧
    r.target_output.length = r.target_input.length ∧
    1 ≤ r.source.length ∧ 2 ≤ r.target_input.length := by
  obtain ⟨sg, tg, hsg, htg, rfl⟩ := recordStream_inv hr
  refine ⟨rfl, rfl, by simp [frame_record], ?_, ?_⟩
  · simpa [frame_record, lookup_sep_vocabs_length] using hsg
  · simp only [frame_record, List.length_cons]
    have := lookup_sep_vocabs_length TT tg
    omega

/-! ### Chunking and window lemmas -/

theorem consHead_flatten (a : α) (R : List (List α)) :
    (consHead a R).flatten = a :: R.flatten := by
  cases R with
  | nil => simp [consHead]
  | cons c cs => simp [consHead]

theorem consHead_mem {a : α} {R : List (List α)} {c : List α}
    (hc : c ∈ consHead a R) :
    (R = [] ∧ c = [a]) ∨
      ∃ c0 cs, R = c0 :: cs ∧ (c = a :: c0 ∨ c ∈ cs) := by
  cases R with
  | nil => simp [consHead] at hc; exact Or.inl ⟨rfl, hc⟩
  | cons c0 cs =>
    rcases List.mem_cons.1 hc with rfl | hc
    · exact Or.inr ⟨c0, cs, rfl, Or.inl rfl⟩
    · exact Or.inr ⟨c0, cs, rfl, Or.inr hc⟩

theorem chunkAux_flatten (n : Nat) :
    ∀ (l : List α) (k : Nat), (chunkAux n k l).flatten = l := by
  intro l
  induction l with
  | nil => intro k; simp [chunkAux]
  | cons x xs ih =>
    intro k
    by_cases hk : k ≤ 1
    · simp [chunkAux, hk, ih]
    · simp [chunkAux, hk, consHead_flatten, ih]

theorem chunkList_flatten (n : Nat) (l : List α) :
    (chunkList n l).flatten = l :=
  chunkAux_flatten n l n

theorem chunkAux_mem {n : Nat} :
    ∀ {l : List α} {k : Nat} {c : List α}, c ∈ chunkAux n k l →
      c ≠ [] ∧ ∀ a ∈ c, a ∈ l := by
  intro l
  induction l with
  | nil => intro k c hc; simp [chunkAux] at hc
  | cons x xs ih =>
    intro k c hc
    by_cases hk : k ≤ 1
    · simp only [chunkAux, if_pos hk, List.mem_cons] at hc
      rcases hc with rfl | hc
      · exact ⟨by simp, by simp⟩
      · rcases ih hc with ⟨h1, h2⟩
        exact ⟨h1, fun a ha => List.mem_cons_of_mem _ (h2 a ha)⟩
    · simp only [chunkAux, if_neg hk] at hc
      rcases consHead_mem hc with ⟨hR, rfl⟩ | ⟨c0, cs, hR, hc2⟩
      · exact ⟨by simp, by simp⟩
      · rcases hc2 with rfl | hc2
        · have h2 := fun a ha => (ih (hR ▸ List.mem_cons_self c0 cs) :
            c0 ≠ [] ∧ ∀ a ∈ c0, a ∈ xs).2 a ha
          refine ⟨by simp, ?_⟩
          intro a ha
          rcases List.mem_cons.1 ha with rfl | ha
          · exact List.mem_cons_self _ _
          · exact List.mem_cons_of_mem _ (h2 a ha)
        · rcases ih (hR ▸ List.mem_cons_of_mem c0 hc2) with ⟨h1, h2⟩
          exact ⟨h1, fun a ha => List.mem_cons_of_mem _ (h2 a ha)⟩

theorem chunkList_mem {n : Nat} {l : List α} {c : List α}
    (hc : c ∈ chunkList n l) : c ≠ [] ∧ ∀ a ∈ c, a ∈ l :=
  chunkAux_mem hc

theorem chunkAux_length_le {n : Nat} :
    ∀ (l : List α) (k : Nat), 1 ≤ k → k ≤ n →
      (∀ c ∈ chunkAux n k l, c.length ≤ n) ∧
      (∀ c0 cs, chunkAux n k l = c0 :: cs → c0.length ≤ k) := by
  intro l
  induction l with
  | nil => intro k _ _; constructor <;> simp [chunkAux]
  | cons x xs ih =>
    intro k hk1 hkn
    by_cases hk : k ≤ 1
    · have hrest := ih n (le_trans hk1 hkn) le_rfl
      constructor
      · intro c hc
        simp only [chunkAux, if_pos hk, List.mem_cons] at hc
        rcases hc with rfl | hc
        · simpa using le_trans hk1 hkn
        · exact hrest.1 c hc
      · intro c0 cs heq
        simp only [chunkAux, if_pos hk] at heq
        have : c0 = [x] := (List.cons.injEq _ _ _ _ ▸ heq :
          [x] = c0 ∧ chunkAux n n xs = cs).1.symm
        simp [this, hk1]
    · have hk2 : 2 ≤ k := by omega
      have hrec := ih (k - 1) (by omega) (by omega)
      constructor
      · intro c hc
        simp only [chunkAux, if_neg hk] at hc
        rcases consHead_mem hc with ⟨hR, rfl⟩ | ⟨c0, cs, hR, hc2⟩
        · simp; omega
        · rcases hc2 with rfl | hc2
          · have := hrec.2 c0 cs hR
            simp only [List.length_cons]
            omega
          · exact hrec.1 c (hR ▸ List.mem_cons_of_mem c0 hc2)
      · intro c0 cs heq
        simp only [chunkAux, if_neg hk] at heq
        cases hR : chunkAux n (k - 1) xs with
        | nil =>
          rw [hR] at heq
          simp only [consHead] at heq
          have : c0 = [x] := (List.cons.injEq _ _ _ _ ▸ heq :
            [x] = c0 ∧ [] = cs).1.symm
          simp [this]; omega
        | cons d0 ds =>
          rw [hR] at heq
          simp only [consHead] at heq
          have hα : c0 = x :: d0 := (List.cons.injEq _ _ _ _ ▸ heq :
            x :: d0 = c0 ∧ ds = cs).1.symm
          have := hrec.2 d0 ds hR
          simp only [hα, List.length_cons]
          omega

theorem chunkList_length_le {n : Nat} (hn : 1 ≤ n) {l : List α} {c : List α}
    (hc : c ∈ chunkList n l) : c.length ≤ n :=
  (chunkAux_length_le l n hn le_rfl).1 c hc

theorem getWin_mem {wins : List (Nat × List α)} {q : Nat} {a : α}
    (h : a ∈ getWin wins q) : ∃ kv ∈ wins, a ∈ kv.2 := by
  induction wins with
  | nil => simp [getWin] at h
  | cons kv rest ih =>
    rcases kv with ⟨k, v⟩
    by_cases hk : k = q
    · exact ⟨(k, v), List.mem_cons_self _ _, by simpa [getWin, hk] using h⟩
    · rcases ih (by simpa [getWin, hk] using h) with ⟨kv2, hkv2, ha⟩
      exact ⟨kv2, List.mem_cons_of_mem _ hkv2, ha⟩

theorem setWin_mem {wins : List (Nat × List α)} {q : Nat} {v : List α}
    {kv : Nat × List α} (h : kv ∈ setWin wins q v) :
    kv ∈ wins ∨ kv = (q, v) := by
  induction wins with
  | nil => simp [setWin] at h; exact Or.inr h
  | cons kw rest ih =>
    rcases kw with ⟨k, w⟩
    by_cases hk : k = q
    · simp only [setWin, hk, if_pos] at h
      rcases List.mem_cons.1 h with rfl | h
      · exact Or.inr rfl
      · exact Or.inl (List.mem_cons_of_mem _ h)
    · simp only [setWin, hk, if_neg, not_false_iff] at h
      rcases List.mem_cons.1 h with rfl | h
      · exact Or.inl (List.mem_cons_self _ _)
      · rcases ih h with h | h
        · exact Or.inl (List.mem_cons_of_mem _ h)
        · exact Or.inr h

theorem gbwAux_sound {key : α → Nat} {wsize : Nat} (P : α → Prop) :
    ∀ (stream : List α) (wins : List (Nat × List α)),
      (∀ kv ∈ wins, ∀ a ∈ kv.2, P a) → (∀ a ∈ stream, P a) →
      ∀ w ∈ gbwAux key wsize wins stream, w ≠ [] ∧ ∀ a ∈ w, P a := by
  intro stream
  induction stream with
  | nil =>
    intro wins hwins _ w hw
    simp only [gbwAux, List.mem_filter, List.mem_map, Bool.not_eq_eq_eq_not,
      Bool.not_true] at hw
    rcases hw with ⟨⟨kv, hkv, rfl⟩, hne⟩
    refine ⟨?_, hwins kv hkv⟩
    intro h
    rw [h] at hne
    simp at hne
  | cons r rs ih =>
    intro wins hwins hstream w hw
    have hr : P r := hstream r (List.mem_cons_self _ _)
    have hrs : ∀ a ∈ rs, P a := fun a ha => hstream a (List.mem_cons_of_mem _ ha)
    have hcur : ∀ a ∈ getWin wins (key r) ++ [r], P a := by
      intro a ha
      rcases List.mem_append.1 ha with ha | ha
      · rcases getWin_mem ha with ⟨kv, hkv, ha2⟩
        exact hwins kv hkv a ha2
      · rcases List.mem_singleton.1 ha with rfl
        exact hr
    simp only [gbwAux] at hw
    by_cases hlen : wsize ≤ (getWin wins (key r) ++ [r]).length
    · rw [if_pos hlen] at hw
      rcases List.mem_cons.1 hw with rfl | hw
      · exact ⟨by simp, hcur⟩
      · refine ih _ ?_ hrs w hw
        intro kv hkv a ha
        rcases setWin_mem hkv with hkv | rfl
        · exact hwins kv hkv a ha
        · simp at ha
    · rw [if_neg hlen] at hw
      refine ih _ ?_ hrs w hw
      intro kv hkv a ha
      rcases setWin_mem hkv with hkv | rfl
      · exact hwins kv hkv a ha
      · exact hcur a ha

/-- Every emitted training batch is `padBatch` applied to a non-empty
window of records drawn from the framed record stream. -/
theorem get_iterator_batches {cfg : TrainConfig} {ST TT : List VocabTable}
    {d : Char} {e : Nat} {input : List (String × String)} {b : Batch}
    (hb : b ∈ get_iterator cfg ST TT d e input) :
    ∃ w, w ≠ [] ∧ (∀ r ∈ w, r ∈ recordStream cfg ST TT d e input) ∧
      b = padBatch ST.length TT.length (lookup0 ST cfg.eos)
            (lookup0 TT cfg.eos) w := by
  simp only [get_iterator] at hb
  by_cases hnb : 1 < cfg.numBuckets
  · rw [if_pos hnb] at hb
    rcases List.mem_map.1 hb with ⟨w, hw, rfl⟩
    have := gbwAux_sound (fun r => r ∈ recordStream cfg ST TT d e input)
      (recordStream cfg ST TT d e input) [] (by simp) (fun a ha => ha) w hw
    exact ⟨w, this.1, this.2, rfl⟩
  · rw [if_neg hnb] at hb
    simp only [batching_func] at hb
    rcases List.mem_map.1 hb with ⟨c, hc, rfl⟩
    rcases chunkList_mem hc with ⟨h1, h2⟩
    exact ⟨c, h1, h2, rfl⟩

/-- The padding behaviour of one `padBatch` window whose records all carry
their raw grid lengths in the scalar length fields. -/
theorem padBatch_gridPadded {w : List TrainRecord} {nSrcF nTgtF : Nat}
    {srcPad tgtPad : Int}
    (hlen : ∀ r ∈ w, r.source_sequence_length = r.source.length ∧
      r.target_sequence_length = r.target_input.length ∧
      r.target_output.length = r.target_input.length) :
    GridPadded (List.replicate nSrcF srcPad)
      (padBatch nSrcF nTgtF srcPad tgtPad w).source
      (padBatch nSrcF nTgtF srcPad tgtPad w).source_sequence_length ∧
    GridPadded (List.replicate nTgtF tgtPad)
      (padBatch nSrcF nTgtF srcPad tgtPad w).target_input
      (padBatch nSrcF nTgtF srcPad tgtPad w).target_sequence_length ∧
    GridPadded (List.replicate nTgtF tgtPad)
      (padBatch nSrcF nTgtF srcPad tgtPad w).target_output
      (padBatch nSrcF nTgtF srcPad tgtPad w).target_sequence_length := by
  have hsrc : w.map (fun r => r.source_sequence_length) =
      w.map (fun r => r.source.length) :=
    List.map_congr_left (fun r hr => (hlen r hr).1)
  have htgt : w.map (fun r => r.target_sequence_length) =
      w.map (fun r => r.target_input.length) :=
    List.map_congr_left (fun r hr => (hlen r hr).2.1)
  have htgtOut : w.map (fun r => r.target_output.length) =
      w.map (fun r => r.target_input.length) :=
    List.map_congr_left (fun r hr => (hlen r hr).2.2)
  refine ⟨?_, ?_, ?_⟩
  · intro p hp
    simp only [padBatch, List.zip_map'] at hp
    rcases List.mem_map.1 hp with ⟨r, hr, rfl⟩
    have hle : r.source.length ≤ maxNat (w.map (fun r => r.source.length)) :=
      maxNat_le_of_mem (List.mem_map_of_mem _ hr)
    simp only [padBatch, hsrc]
    refine ⟨padGrid_length hle, ?_, ?_⟩
    · rw [padGrid_length hle, (hlen r hr).1]; exact hle
    · rw [(hlen r hr).1, padGrid_drop]
  · intro p hp
    simp only [padBatch, List.zip_map'] at hp
    rcases List.mem_map.1 hp with ⟨r, hr, rfl⟩
    have hle : r.target_input.length ≤
        maxNat (w.map (fun r => r.target_input.length)) :=
      maxNat_le_of_mem (List.mem_map_of_mem _ hr)
    simp only [padBatch, htgt]
    refine ⟨padGrid_length hle, ?_, ?_⟩
    · rw [padGrid_length hle, (hlen r hr).2.1]; exact hle
    · rw [(hlen r hr).2.1, padGrid_drop]
  · intro p hp
    simp only [padBatch, List.zip_map'] at hp
    rcases List.mem_map.1 hp with ⟨r, hr, rfl⟩
    have hle : r.target_output.length ≤
        maxNat (w.map (fun r => r.target_output.length)) :=
      maxNat_le_of_mem (List.mem_map_of_mem _ hr)
    simp only [padBatch, htgt, htgtOut]
    rw [htgtOut] at hle
    refine ⟨padGrid_length hle, ?_, ?_⟩
    · rw [padGrid_length hle, (hlen r hr).2.1, ← (hlen r hr).2.2]; exact hle
    · rw [(hlen r hr).2.1, ← (hlen r hr).2.2, padGrid_drop]

/-! ### Sharding lemmas -/

theorem shardAux_getElem (n : Nat) (hn : 0 < n) :
    ∀ (l : List α) (k j : Nat), (shardAux n k l)[j]? = l[k + j * n]? := by
  intro l
  induction l with
  | nil => intro k j; simp [shardAux]
  | cons x xs ih =>
    intro k j
    cases k with
    | zero =>
      cases j with
      | zero => simp [shardAux]
      | succ j =>
        have h1 : (shardAux n 0 (x :: xs))[j + 1]? =
            (shardAux n (n - 1) xs)[j]? := by
          simp [shardAux]
        have hsm : (j + 1) * n = j * n + n := by ring
        rw [h1, ih (n - 1) j,
          show 0 + (j + 1) * n = (n - 1 + j * n) + 1 by omega,
          List.getElem?_cons_succ]
    | succ k =>
      have h1 : shardAux n (k + 1) (x :: xs) = shardAux n k xs := rfl
      rw [h1, ih k j, show k + 1 + j * n = (k + j * n) + 1 by omega,
        List.getElem?_cons_succ]

theorem shardList_getElem {n : Nat} (hn : 0 < n) (i k : Nat) (l : List α) :
    (shardList n i l)[k]? = l[i + k * n]? :=
  shardAux_getElem n hn l i k

theorem shardList_nil (n i : Nat) : shardList n i ([] : List α) = [] := by
  simp [shardList, shardAux]

theorem shardList_cons_zero (n : Nat) (x : α) (xs : List α) :
    shardList n 0 (x :: xs) = x :: shardList n (n - 1) xs :=
  rfl

theorem shardList_cons_succ (n i : Nat) (x : α) (xs : List α) :
    shardList n (i + 1) (x :: xs) = shardList n i xs :=
  rfl

theorem shardList_count_sum [DecidableEq α] {n : Nat} (hn : 0 < n) (x : α) :
    ∀ l : List α,
      ∑ i in Finset.range n, (shardList n i l).count x = l.count x := by
  intro l
  induction l with
  | nil => simp [shardList_nil]
  | cons a l ih =>
    obtain ⟨m, rfl⟩ : ∃ m, n = m + 1 := ⟨n - 1, by omega⟩
    rw [Finset.sum_range_succ']
    have hf : ∀ i, (shardList (m + 1) (i + 1) (a :: l)).count x =
        (shardList (m + 1) i l).count x := by
      intro i
      rw [shardList_cons_succ]
    have h0 : (shardList (m + 1) 0 (a :: l)).count x =
        (shardList (m + 1) m l).count x + if a = x then 1 else 0 := by
      rw [shardList_cons_zero]
      simp [List.count_cons]
    calc (∑ i in Finset.range m, (shardList (m + 1) (i + 1) (a :: l)).count x)
          + (shardList (m + 1) 0 (a :: l)).count x
        = (∑ i in Finset.range m, (shardList (m + 1) i l).count x)
          + ((shardList (m + 1) m l).count x + if a = x then 1 else 0) := by
          simp only [hf, h0]
      _ = (∑ i in Finset.range (m + 1), (shardList (m + 1) i l).count x)
          + if a = x then 1 else 0 := by
          rw [Finset.sum_range_succ]
          omega
      _ = l.count x + if a = x then 1 else 0 := by rw [ih]
      _ = (a :: l).count x := by simp [List.count_cons]

/-! ### Claim theorems -/

/-- C1: every training record that passes the zero-length filter has
`target_input` equal to the per-field sos-id row prepended to the target
token-id grid and `target_output` equal to the per-field eos-id row appended
to it, and the recorded lengths satisfy `source_length = timesteps(source)`
and `target_length = timesteps(target_input)`, i.e.
`len(target_input) = len(target_output) = len(target) + 1` (word mode). -/
theorem claim1_framer_shapes {cfg : TrainConfig} {ST TT : List VocabTable}
    {d : Char} {e : Nat} {input : List (String × String)} {r : TrainRecord}
    (hr : r ∈ recordStream cfg ST TT d e input) :
    ∃ T, r.target_input = markerRow TT cfg.sos :: T ∧
      r.target_output = T ++ [markerRow TT cfg.eos] ∧
      r.source_sequence_length = r.source.length ∧
      r.target_sequence_length = r.target_input.length ∧
      r.target_input.length = T.length + 1 ∧
      r.target_output.length = T.length + 1 := by
  obtain ⟨sg, tg, _, _, rfl⟩ := recordStream_inv hr
  exact ⟨lookup_sep_vocabs TT tg, rfl, rfl, rfl, rfl, by simp [frame_record],
    by simp [frame_record]⟩

/-- Witness for C1 at the end-to-end example: the first record of the
stream carries sos-prefixed input, eos-suffixed output and lengths 3 = 2+1. -/
theorem claim1_witness :
    ∃ T, (⟨[[4], [5], [6]], [[2], [9], [10]], [[9], [10], [3]], 3, 3⟩ :
        TrainRecord).target_input = markerRow tgtTablesW cfgW.sos :: T ∧
      (⟨[[4], [5], [6]], [[2], [9], [10]], [[9], [10], [3]], 3, 3⟩ :
        TrainRecord).target_output = T ++ [markerRow tgtTablesW cfgW.eos] ∧
      (⟨[[4], [5], [6]], [[2], [9], [10]], [[9], [10], [3]], 3, 3⟩ :
        TrainRecord).source_sequence_length =
        (⟨[[4], [5], [6]], [[2], [9], [10]], [[9], [10], [3]], 3, 3⟩ :
        TrainRecord).source.length ∧
      (⟨[[4], [5], [6]], [[2], [9], [10]], [[9], [10], [3]], 3, 3⟩ :
        TrainRecord).target_sequence_length =
        (⟨[[4], [5], [6]], [[2], [9], [10]], [[9], [10], [3]], 3, 3⟩ :
        TrainRecord).target_input.length ∧
      (⟨[[4], [5], [6]], [[2], [9], [10]], [[9], [10], [3]], 3, 3⟩ :
        TrainRecord).target_input.length = T.length + 1 ∧
      (⟨[[4], [5], [6]], [[2], [9], [10]], [[9], [10], [3]], 3, 3⟩ :
        TrainRecord).target_output.length = T.length + 1 :=
  @claim1_framer_shapes cfgW srcTablesW tgtTablesW (Char.ofNat 124) 0 inputW _ (by decide)

/-- C9: every record reaching the batching stage has a source length of at
least one timestep and a target length of at least two timesteps (sos
prefix added to a non-empty filtered target). -/
theorem claim9_min_lengths {cfg : TrainConfig} {ST TT : List VocabTable}
    {d : Char} {e : Nat} {input : List (String × String)} {r : TrainRecord}
    (hr : r ∈ recordStream cfg ST TT d e input) :
    1 ≤ r.source_sequence_length ∧ 2 ≤ r.target_sequence_length := by
  obtain ⟨h1, h2, _, h4, h5⟩ := recordStream_lengths hr
  constructor <;> omega

/-- Witness for C9 at the second record of the end-to-end example. -/
theorem claim9_witness :
    1 ≤ (⟨[[7], [8]], [[2], [11]], [[11], [3]], 2, 2⟩ :
        TrainRecord).source_sequence_length ∧
    2 ≤ (⟨[[7], [8]], [[2], [11]], [[11], [3]], 2, 2⟩ :
        TrainRecord).target_sequence_length :=
  @claim9_min_lengths cfgW srcTablesW tgtTablesW (Char.ofNat 124) 0 inputW _ (by decide)

/-- C2: every emitted batch is padded per field-group to the maximum raw
(pre-padding) timestep count of the batch's records, filling with the eos
id of field 0's vocabulary table of that side replicated across all fields
of that side; the scalar length entries pass through with nothing to pad. -/
theorem claim2_batch_padding {cfg : TrainConfig} {ST TT : List VocabTable}
    {d : Char} {e : Nat} {input : List (String × String)} {b : Batch}
    (hb : b ∈ get_iterator cfg ST TT d e input) :
    GridPadded (padRow ST cfg.eos) b.source b.source_sequence_length ∧
    GridPadded (padRow TT cfg.eos) b.target_input b.target_sequence_length ∧
    GridPadded (padRow TT cfg.eos) b.target_output b.target_sequence_length := by
  obtain ⟨w, -, hw, rfl⟩ := get_iterator_batches hb
  have hlen : ∀ r ∈ w, r.source_sequence_length = r.source.length ∧
      r.target_sequence_length = r.target_input.length ∧
      r.target_output.length = r.target_input.length := by
    intro r hr
    obtain ⟨h1, h2, h3, _, _⟩ := recordStream_lengths (hw r hr)
    exact ⟨h1, h2, h3⟩
  exact padBatch_gridPadded hlen

/-- Witness for C2 at the single batch of the end-to-end example. -/
theorem claim2_witness :
    GridPadded (padRow srcTablesW cfgW.eos)
      (⟨[[[4], [5], [6]], [[7], [8], [3]]],
        [[[2], [9], [10]], [[2], [11], [3]]],
        [[[9], [10], [3]], [[11], [3], [3]]], [3, 2], [3, 2]⟩ : Batch).source
      (⟨[[[4], [5], [6]], [[7], [8], [3]]],
        [[[2], [9], [10]], [[2], [11], [3]]],
        [[[9], [10], [3]], [[11], [3], [3]]], [3, 2], [3, 2]⟩ :
        Batch).source_sequence_length ∧
    GridPadded (padRow tgtTablesW cfgW.eos)
      (⟨[[[4], [5], [6]], [[7], [8], [3]]],
        [[[2], [9], [10]], [[2], [11], [3]]],
        [[[9], [10], [3]], [[11], [3], [3]]], [3, 2], [3, 2]⟩ :
        Batch).target_input
      (⟨[[[4], [5], [6]], [[7], [8], [3]]],
        [[[2], [9], [10]], [[2], [11], [3]]],
        [[[9], [10], [3]], [[11], [3], [3]]], [3, 2], [3, 2]⟩ :
        Batch).target_sequence_length ∧
    GridPadded (padRow tgtTablesW cfgW.eos)
      (⟨[[[4], [5], [6]], [[7], [8], [3]]],
        [[[2], [9], [10]], [[2], [11], [3]]],
        [[[9], [10], [3]], [[11], [3], [3]]], [3, 2], [3, 2]⟩ :
        Batch).target_output
      (⟨[[[4], [5], [6]], [[7], [8], [3]]],
        [[[2], [9], [10]], [[2], [11], [3]]],
        [[[9], [10], [3]], [[11], [3], [3]]], [3, 2], [3, 2]⟩ :
        Batch).target_sequence_length :=
  @claim2_batch_padding cfgW srcTablesW tgtTablesW (Char.ofNat 124) 0 inputW _ (by decide)

/-- C5: a training pair whose source or target line tokenizes to zero
whitespace tokens is dropped by the filter stage — its framed record is
never in the record stream — and no emitted batch contains a zero source
length or a target length below two. -/
theorem claim5_zero_length_filtered {cfg : TrainConfig}
    {ST TT : List VocabTable} {d : Char} {e : Nat}
    {input : List (String × String)} {s t : String}
    (h : wsSplit s = [] ∨ wsSplit t = []) :
    frame_record (markerRow TT cfg.sos) (markerRow TT cfg.eos)
        (lookup_sep_vocabs ST (truncateGrid cfg.srcMaxLen (tokenizeLine d s)))
        (lookup_sep_vocabs TT (truncateGrid cfg.tgtMaxLen (tokenizeLine d t)))
      ∉ recordStream cfg ST TT d e input ∧
    ∀ b ∈ get_iterator cfg ST TT d e input,
      0 ∉ b.source_sequence_length ∧
      ∀ m ∈ b.target_sequence_length, 2 ≤ m := by
  constructor
  · intro hmem
    obtain ⟨h1, h2, _, h4, h5⟩ := recordStream_lengths hmem
    rcases h with h | h
    · have hz : tokenizeLine d s = [] := by
        simp [tokenizeLine, h, sparse_to_dense]
      rw [hz] at h4
      have : truncateGrid cfg.srcMaxLen [] = [] := by
        simp [truncateGrid]
      rw [this] at h4
      simp [frame_record, lookup_sep_vocabs] at h4
    · have hz : tokenizeLine d t = [] := by
        simp [tokenizeLine, h, sparse_to_dense]
      rw [hz] at h5
      have : truncateGrid cfg.tgtMaxLen [] = [] := by
        simp [truncateGrid]
      rw [this] at h5
      simp [frame_record, lookup_sep_vocabs] at h5
  · intro b hb
    obtain ⟨w, -, hw, rfl⟩ := get_iterator_batches hb
    constructor
    · intro h0
      rcases List.mem_map.1 h0 with ⟨r, hr, hr0⟩
      obtain ⟨h1, _, _, h4, _⟩ := recordStream_lengths (hw r hr)
      rw [h1] at hr0
      omega
    · intro m hm
      rcases List.mem_map.1 hm with ⟨r, hr, rfl⟩
      obtain ⟨_, h2, _, _, h5⟩ := recordStream_lengths (hw r hr)
      rw [h2]
      exact h5

/-- Witness for C5: the empty source line paired with `z` is dropped, and
the end-to-end example's batches carry no zero or sub-two lengths. -/
theorem claim5_witness :
    frame_record (markerRow tgtTablesW cfgW.sos) (markerRow tgtTablesW cfgW.eos)
        (lookup_sep_vocabs srcTablesW
          (truncateGrid cfgW.srcMaxLen (tokenizeLine '|' "")))
        (lookup_sep_vocabs tgtTablesW
          (truncateGrid cfgW.tgtMaxLen (tokenizeLine '|' "z")))
      ∉ recordStream cfgW srcTablesW tgtTablesW '|' 0 inputW ∧
    ∀ b ∈ get_iterator cfgW srcTablesW tgtTablesW '|' 0 inputW,
      0 ∉ b.source_sequence_length ∧
      ∀ m ∈ b.target_sequence_length, 2 ≤ m :=
  @claim5_zero_length_filtered cfgW srcTablesW tgtTablesW '|' 0 inputW "" "z"
    (Or.inl (by decide))

/-- C4: for records entering the bucketing batcher with more than one
bucket, the bucket id equals
`min(num_buckets, max(source_length, target_length) / bucket_width)` with
`bucket_width = ceil(src_max_len / num_buckets)` when a maximum source
length is configured and `bucket_width = 10` otherwise. -/
theorem claim4_bucket_id (smax : Option Nat) (nb sl tl : Nat)
    (hnb : 1 < nb) :
    key_func smax nb sl tl = claimBucketId smax nb sl tl := by
  have hdiv : ∀ a b w : Nat, max (a / w) (b / w) = max a b / w := by
    intro a b w
    rcases le_total a b with hab | hab
    · rw [max_eq_right hab, max_eq_right (Nat.div_le_div_right hab)]
    · rw [max_eq_left hab, max_eq_left (Nat.div_le_div_right hab)]
  unfold key_func claimBucketId
  cases hsm : truthy smax
  · simp [hsm, hdiv]
  · simp [hsm, Nat.ceilDiv_eq_add_pred_div, hdiv]

/-- Witness for C4: `src_max_len = 25` and 4 buckets give width 7; lengths
13 and 9 land in bucket 1 either way. -/
theorem claim4_witness :
    key_func (some 25) 4 13 9 = claimBucketId (some 25) 4 13 9 :=
  claim4_bucket_id (some 25) 4 13 9 (by decide)

/-- C6: with `num_buckets = 1` bucketing is bypassed — the emitted batches
are exactly the consecutive chunks of up to `batch_size` records of the
arriving record stream, in arrival order (their concatenation restores the
stream and no chunk is empty or oversized). -/
theorem claim6_single_bucket (cfg : TrainConfig) (ST TT : List VocabTable)
    (d : Char) (e : Nat) (input : List (String × String))
    (h1 : cfg.numBuckets = 1) (h2 : 1 ≤ cfg.batchSize) :
    get_iterator cfg ST TT d e input =
      (chunkList cfg.batchSize (recordStream cfg ST TT d e input)).map
        (padBatch ST.length TT.length (lookup0 ST cfg.eos)
          (lookup0 TT cfg.eos)) ∧
    (chunkList cfg.batchSize (recordStream cfg ST TT d e input)).flatten =
      recordStream cfg ST TT d e input ∧
    ∀ c ∈ chunkList cfg.batchSize (recordStream cfg ST TT d e input),
      c ≠ [] ∧ c.length ≤ cfg.batchSize := by
  refine ⟨?_, chunkList_flatten _ _, fun c hc =>
    ⟨(chunkList_mem hc).1, chunkList_length_le h2 hc⟩⟩
  simp only [get_iterator, h1]
  rw [if_neg (lt_irrefl 1)]
  rfl

/-- Witness for C6 at the end-to-end example. -/
theorem claim6_witness :
    get_iterator cfgW srcTablesW tgtTablesW '|' 0 inputW =
      (chunkList cfgW.batchSize
        (recordStream cfgW srcTablesW tgtTablesW '|' 0 inputW)).map
        (padBatch srcTablesW.length tgtTablesW.length
          (lookup0 srcTablesW cfgW.eos) (lookup0 tgtTablesW cfgW.eos)) ∧
    (chunkList cfgW.batchSize
      (recordStream cfgW srcTablesW tgtTablesW '|' 0 inputW)).flatten =
      recordStream cfgW srcTablesW tgtTablesW '|' 0 inputW ∧
    ∀ c ∈ chunkList cfgW.batchSize
        (recordStream cfgW srcTablesW tgtTablesW '|' 0 inputW),
      c ≠ [] ∧ c.length ≤ cfgW.batchSize :=
  claim6_single_bucket cfgW srcTablesW tgtTablesW '|' 0 inputW
    (by decide) (by decide)

/-- C7: with `reshuffle_each_iteration = false` (and everything else fixed:
input, seed, skip count), any two runs of the training pipeline produce
identical sequences of batches. -/
theorem claim7_deterministic_replay (cfg : TrainConfig)
    (ST TT : List VocabTable) (d : Char) (input : List (String × String))
    (e1 e2 : Nat) (h : cfg.reshuffle_each_iteration = false) :
    get_iterator cfg ST TT d e1 input = get_iterator cfg ST TT d e2 input := by
  have hs : recordStream cfg ST TT d e1 input =
      recordStream cfg ST TT d e2 input := by
    simp only [recordStream, effectiveSeed, h]
    simp
  simp only [get_iterator, hs]

/-- Witness for C7: epochs 0 and 1 of the end-to-end example coincide. -/
theorem claim7_witness :
    get_iterator cfgW srcTablesW tgtTablesW '|' 0 inputW =
      get_iterator cfgW srcTablesW tgtTablesW '|' 1 inputW :=
  claim7_deterministic_replay cfgW srcTablesW tgtTablesW '|' inputW 0 1 rfl

/-- C8: shard `i` of `num_shards` owns exactly the records at positions
congruent to `i` modulo `num_shards` of the un-shuffled input order (its
`k`-th element is input element `i + k * num_shards`, and every position
`p` with `p mod num_shards = i` is element `p / num_shards` of the shard),
and the shards partition the input: summed over all shard indices, each
record occurs exactly as often as in the input — no overlap, no loss. -/
theorem claim8_shard_partition {α : Type} [DecidableEq α] (n : Nat)
    (l : List α) (hn : 0 < n) :
    (∀ i k, (shardList n i l)[k]? = l[i + k * n]?) ∧
    (∀ i p, p % n = i → (shardList n i l)[p / n]? = l[p]?) ∧
    ∀ x, ∑ i in Finset.range n, (shardList n i l).count x = l.count x := by
  refine ⟨fun i k => shardList_getElem hn i k l, ?_,
    fun x => shardList_count_sum hn x l⟩
  intro i p hp
  rw [shardList_getElem hn]
  have hip : i + p / n * n = p := by
    rw [← hp, Nat.mul_comm]
    exact Nat.mod_add_div p n
  rw [hip]

/-- Witness for C8 on a three-record corpus split into two shards. -/
theorem claim8_witness :
    (shardList 2 1 [("a", "x"), ("b", "y"), ("c", "z")])[0]? =
      [("a", "x"), ("b", "y"), ("c", "z")][1 + 0 * 2]? ∧
    (shardList 2 0 [("a", "x"), ("b", "y"), ("c", "z")])[1]? =
      [("a", "x"), ("b", "y"), ("c", "z")][0 + 1 * 2]? :=
  ⟨(claim8_shard_partition 2 [("a", "x"), ("b", "y"), ("c", "z")]
      (by decide)).1 1 0,
   (claim8_shard_partition 2 [("a", "x"), ("b", "y"), ("c", "z")]
      (by decide)).1 0 1⟩

/-- C10: a configured maximum length of `None` or `0` disables truncation
entirely (the grid passes through unsliced and the whole pipeline behaves
as if the maximum were unset), while a positive maximum slices to exactly
that many leading timesteps; this holds for the training iterator and the
inference iterator alike. -/
theorem claim10_truncation_toggle (cfg : TrainConfig)
    (ST TT : List VocabTable) (d : Char) (e : Nat)
    (input : List (String × String)) (inp : List String) (bs : Nat)
    (eosW : String) (g : List (List String)) (k : Nat) (hk : 0 < k) :
    truncateGrid none g = g ∧
    truncateGrid (some 0) g = g ∧
    truncateGrid (some k) g = g.take k ∧
    get_infer_iterator ST bs eosW (some 0) d inp =
      get_infer_iterator ST bs eosW none d inp ∧
    get_iterator { cfg with srcMaxLen := some 0, tgtMaxLen := some 0 }
        ST TT d e input =
      get_iterator { cfg with srcMaxLen := none, tgtMaxLen := none }
        ST TT d e input := by
  have ht0 : truncateGrid (some 0) = truncateGrid none := by
    funext g2
    simp [truncateGrid, truthy]
  have hkf : key_func (some 0) = key_func none := by
    funext nb a b2
    simp [key_func, truthy]
  refine ⟨by simp [truncateGrid, truthy], ?_, ?_, ?_, ?_⟩
  · rw [ht0]
    simp [truncateGrid, truthy]
  · simp [truncateGrid, truthy, Nat.pos_iff_ne_zero.mp hk]
  · unfold get_infer_iterator infer_records
    rw [ht0]
  · simp only [get_iterator, recordStream, effectiveBufferSize, ht0, hkf]

/-- Witness for C10 at a concrete grid, corpus and positive maximum. -/
theorem claim10_witness :
    truncateGrid none [["a"], ["b"]] = [["a"], ["b"]] ∧
    truncateGrid (some 0) [["a"], ["b"]] = [["a"], ["b"]] ∧
    truncateGrid (some 1) [["a"], ["b"]] = [["a"], ["b"]].take 1 ∧
    get_infer_iterator srcTablesW 1 "</s>" (some 0) '|' ["a b"] =
      get_infer_iterator srcTablesW 1 "</s>" none '|' ["a b"] ∧
    get_iterator { cfgW with srcMaxLen := some 0, tgtMaxLen := some 0 }
        srcTablesW tgtTablesW '|' 0 inputW =
      get_iterator { cfgW with srcMaxLen := none, tgtMaxLen := none }
        srcTablesW tgtTablesW '|' 0 inputW :=
  claim10_truncation_toggle cfgW srcTablesW tgtTablesW '|' 0 inputW
    ["a b"] 1 "</s>" [["a"], ["b"]] 1 (by decide)

/-- Helper: zipping a mapped list with the original pairs each element with
its image. -/
theorem zip_map_self (f : α → β) (l : List α) :
    (l.map f).zip l = l.map (fun a => (f a, a)) := by
  induction l with
  | nil => rfl
  | cons x xs ih => simp [ih]

/-- C3 counterexample: the token `b` of the line `a|x b` lacks the
sub-field delimiter expected by the two source vocabulary tables, yet the
pipeline neither fails nor skips the record — the dense conversion pads the
row with an empty string (looked up to the default id 0) and the record is
tokenized, framed and emitted in a batch. -/
theorem claim3_counterexample :
    "b" ∈ wsSplit "a|x b" ∧
    (fieldSplit '|' "b").length = 1 ∧
    srcTablesC3.length = 2 ∧
    recordStream cfgC3 srcTablesC3 tgtTablesC3 '|' 0 [("a|x b", "c|y")] =
      [⟨[[4, 14], [5, 0]], [[2, 2], [6, 15]], [[6, 15], [3, 3]], 2, 2⟩] ∧
    get_iterator cfgC3 srcTablesC3 tgtTablesC3 '|' 0 [("a|x b", "c|y")] =
      [⟨[[[4, 14], [5, 0]]], [[[2, 2], [6, 15]]], [[[6, 15], [3, 3]]],
        [2], [2]⟩] :=
  ⟨by decide, by decide, by decide, by decide, by decide⟩

/-- C3 as the code actually behaves: tokenization never drops or fails a
record (the dense grid has one row per whitespace token), and a token with
fewer sub-fields than the record's widest token gets its row right-padded
with empty strings up to the shared grid width. -/
theorem claim3_dense_padding (d : Char) (s : String) :
    (tokenizeLine d s).length = (wsSplit s).length ∧
    ∀ p ∈ (tokenizeLine d s).zip (wsSplit s),
      p.1 = fieldSplit d p.2 ++
        List.replicate
          (gridWidth ((wsSplit s).map (fieldSplit d)) -
            (fieldSplit d p.2).length) "" ∧
      p.1.length = gridWidth ((wsSplit s).map (fieldSplit d)) := by
  have htok : tokenizeLine d s = (wsSplit s).map (fun a =>
      fieldSplit d a ++ List.replicate
        (gridWidth ((wsSplit s).map (fieldSplit d)) -
          (fieldSplit d a).length) "") := by
    unfold tokenizeLine sparse_to_dense
    rw [List.map_map]
    rfl
  constructor
  · rw [htok, List.length_map]
  · intro p hp
    rw [htok, zip_map_self] at hp
    rcases List.mem_map.1 hp with ⟨a, ha, rfl⟩
    refine ⟨rfl, ?_⟩
    have hle : (fieldSplit d a).length ≤
        gridWidth ((wsSplit s).map (fieldSplit d)) := by
      rw [gridWidth_eq_maxNat]
      have hmem : (fieldSplit d a).length ∈
          ((wsSplit s).map (fieldSplit d)).map (fun r => r.length) := by
        rw [List.map_map]
        exact List.mem_map_of_mem _ ha
      exact maxNat_le_of_mem hmem
    simp only [List.length_append, List.length_replicate]
    omega

end IteratorUtils
